import Mathlib

/-!
Verification development for the Financial-Analysis-Agents repository.

Shallow embedding of:
* `app/utils/number_parsing.py`          (`parse_inr_number`)
* `app/tools/financial_extractor_tool.py` (`_extract_from_single_report`,
  `_normalize_metric_key`, `validate_and_enrich_metrics` fallback path)
* `app/tools/qualitative_analysis_tool.py` (`_FakeEmbedder.encode`,
  `index_transcripts`/`analyze`, the pure-Python branch of `retrieve`)

Numbers are modelled with `ℚ` (exact arithmetic standing in for Python
floats), strings with `String`/`List Char`, Python dicts with ordered
association lists.
-/

namespace NumParse

/-- ASCII whitespace, as matched by the regex class `\s` on the inputs
considered here. -/
def isSpaceCh (c : Char) : Bool :=
  c == ' ' || c == '\t' || c == '\n' || c == '\r' || c == '\x0b' || c == '\x0c'

/-- Word characters for the regex word-boundary `\b` (ASCII fragment of
Python's `\w`: letters, digits, underscore). -/
def isWordCh (c : Char) : Bool := c.isAlphanum || c == '_'

/-- The character class `[0-9]`. -/
def isDigitCh (c : Char) : Bool :=
  ['0', '1', '2', '3', '4', '5', '6', '7', '8', '9'].contains c

/-- The character class `[0-9,\.]` of pattern 1. -/
def isNumCh (c : Char) : Bool := isDigitCh c || c == ',' || c == '.'

/-- Numeric value of a list of decimal digit characters. -/
def digitsVal (cs : List Char) : ℕ :=
  cs.foldl (fun a c => a * 10 + (c.toNat - '0'.toNat)) 0

/-- Python `float(s)` restricted to strings of digits and dots (the only
shapes reachable after comma-stripping a regex group): `none` models the
`ValueError` branch that makes the parser return `None`. -/
def pyFloat (cs : List Char) : Option ℚ :=
  match cs.splitOn '.' with
  | [a] => if !a.isEmpty && a.all isDigitCh then some (digitsVal a) else none
  | [a, b] =>
      if !(a ++ b).isEmpty && (a ++ b).all isDigitCh then
        some (mkRat (digitsVal a * 10 ^ b.length + digitsVal b) (10 ^ b.length))
      else none
  | _ => none

/-- After a `₹` symbol: `\s*([0-9,\.]+)` — skip whitespace greedily, then the
group is the maximal run of `[0-9,\.]` (the trailing `\s*(Cr|Crore|CR|cr|Million|Mn)?`
always matches and captures nothing relevant). -/
def p1Group (rest : List Char) : Option (List Char) :=
  let r := rest.dropWhile isSpaceCh
  let g := r.takeWhile isNumCh
  if g.isEmpty then none else some g

/-- Pattern 1 search, `re.search(r'₹\s*([0-9,\.]+)\s*(Cr|Crore|CR|cr|Million|Mn)?', text)`:
scan left to right for a `₹` whose continuation matches; return group 1. -/
def p1Search : List Char → Option (List Char)
  | [] => none
  | c :: rest =>
      if c == '₹' then
        match p1Group rest with
        | some g => some g
        | none => p1Search rest
      else p1Search rest

/-- Take exactly `k` digit characters from the front, returning the rest. -/
def takeDigits (k : ℕ) (s : List Char) : Option (List Char × List Char) :=
  let t := s.take k
  if t.length = k && t.all isDigitCh then some (t, s.drop k) else none

/-- Maximal number of repetitions of `,` followed by exactly `w` digits
(fuel-driven; fuel = remaining length always suffices since each repetition
consumes `w + 1 ≥ 1` characters). -/
def countReps (w : ℕ) : ℕ → List Char → ℕ
  | 0, _ => 0
  | fuel + 1, s =>
      match s with
      | ',' :: rest =>
          match takeDigits w rest with
          | some (_, r) => countReps w fuel r + 1
          | none => 0
      | _ => 0

/-- Drop `n` repetitions of `,` followed by `w` digits. -/
def dropReps (w : ℕ) : ℕ → List Char → List Char
  | 0, s => s
  | n + 1, s =>
      match s with
      | ',' :: rest =>
          match takeDigits w rest with
          | some (_, r) => dropReps w n r
          | none => s
      | _ => s

/-- Word-boundary check after a match whose last character is a digit:
the next character must be absent or a non-word character. -/
def endBoundary (rest : List Char) : Bool :=
  match rest with
  | [] => true
  | c :: _ => !isWordCh c

/-- Word-boundary check before a match whose first character is a digit:
the previous character must be absent or a non-word character. -/
def startBoundary (prev : Option Char) : Bool :=
  match prev with
  | none => true
  | some p => !isWordCh p

/-- Backtracking candidates (group, rest) in regex priority order for
`[0-9]{1,3}(?:,[0-9]{w})+` optionally followed by `(?:,[0-9]{3})?`
(the optional trailing triple is present only for pattern 2, `withTrail`),
anchored at the start of `s`. -/
def candsAt (w : ℕ) (withTrail : Bool) (s : List Char) : List (List Char × List Char) :=
  [3, 2, 1].flatMap fun k =>
    match takeDigits k s with
    | none => []
    | some (_, t) =>
        let N := countReps w t.length t
        ((List.range N).map (fun j => N - j)).flatMap fun n =>
          let t2 := dropReps w n t
          let trail :=
            match t2 with
            | ',' :: r =>
                match takeDigits 3 r with
                | some (_, r2) => [(s.take (s.length - r2.length), r2)]
                | none => []
            | _ => []
          (if withTrail then trail else []) ++ [(s.take (s.length - t2.length), t2)]

/-- Search (`re.search`) for the grouped patterns 2 and 3: try each start position
left to right (tracking the previous character for `\b`), and at each
position take the highest-priority candidate whose end lands on a word
boundary. -/
def searchGrouped (w : ℕ) (withTrail : Bool) : Option Char → List Char → Option (List Char)
  | _, [] => none
  | prev, c :: rest =>
      let here :=
        if startBoundary prev then
          ((candsAt w withTrail (c :: rest)).find? (fun p => endBoundary p.2)).map (·.1)
        else none
      match here with
      | some g => some g
      | none => searchGrouped w withTrail (some c) rest

/-- Backtracking candidates for pattern 4, `[0-9]+(?:\.[0-9]+)?`, anchored at
the start of `s`. -/
def cands4 (s : List Char) : List (List Char × List Char) :=
  let run := s.takeWhile isDigitCh
  ((List.range run.length).map (fun j => run.length - j)).flatMap fun k =>
    let intPart := s.take k
    let rest := s.drop k
    let frac :=
      match rest with
      | '.' :: r =>
          let frun := r.takeWhile isDigitCh
          ((List.range frun.length).map (fun j => frun.length - j)).map fun fk =>
            (intPart ++ '.' :: r.take fk, r.drop fk)
      | _ => []
    frac ++ [(intPart, rest)]

/-- Pattern 4 search, `re.search(r'\b([0-9]+(?:\.[0-9]+)?)\b', text)`. -/
def search4 : Option Char → List Char → Option (List Char)
  | _, [] => none
  | prev, c :: rest =>
      let here :=
        if startBoundary prev then
          ((cands4 (c :: rest)).find? (fun p => endBoundary p.2)).map (·.1)
        else none
      match here with
      | some g => some g
      | none => search4 (some c) rest

/-- The body of `parse_inr_number` on a character list: the four patterns are tried in
order; the first pattern whose regex matches determines the result (its
`float(...)` failure returns `None` without trying later patterns). -/
def parseChars (s : List Char) : Option ℚ :=
  match p1Search s with
  | some g => pyFloat (g.filter (fun c => c != ','))
  | none =>
  match searchGrouped 2 true none s with
  | some g => pyFloat (g.filter (fun c => c != ','))
  | none =>
  match searchGrouped 3 false none s with
  | some g => pyFloat (g.filter (fun c => c != ','))
  | none =>
  match search4 none s with
  | some g => pyFloat g
  | none => none

/-- Top-level `parse_inr_number(text)` from `app/utils/number_parsing.py`
(`if not text: return None`, then the four-pattern cascade). -/
def parse_inr_number (s : String) : Option ℚ :=
  if s.data.isEmpty then none else parseChars s.data

end NumParse

namespace Extractor

/-- A raw metric candidate as produced by `_extract_with_camelot` /
`_parse_metrics_from_text`: a dict with `label`, `value`, `unit` and (for
camelot hits) `confidence`. -/
structure Cand where
  label : String
  value : ℚ
  unit : String
  confidence : ℚ
deriving DecidableEq

/-- One entry of the per-document `metrics` dict built by
`_extract_from_single_report`. -/
structure Entry where
  value : ℚ
  unit : String
  confidence : ℚ
  method : String
  label : String
deriving DecidableEq

/-- The `metrics` dict: an insertion-ordered association list (Python dict). -/
abbrev MetricMap := List (String × Entry)

/-- Python `metrics[k]` / `k in metrics` (first, hence only, binding). -/
def lookup (m : MetricMap) (k : String) : Option Entry :=
  (m.find? (fun p => p.1 == k)).map (fun p => p.2)

def hasKey (m : MetricMap) (k : String) : Bool := (lookup m k).isSome

/-- Does `needle` occur at the head of the second list? -/
def startsWithChars : List Char → List Char → Bool
  | [], _ => true
  | _ :: _, [] => false
  | a :: as, b :: bs => a == b && startsWithChars as bs

/-- Substring occurrence, Python `needle in hay`. -/
def containsSub (needle : List Char) : List Char → Bool
  | [] => needle.isEmpty
  | c :: rest => startsWithChars needle (c :: rest) || containsSub needle rest

/-- Python `needle in hay` with a lowercased haystack. -/
def strContains (hay : List Char) (needle : String) : Bool := containsSub needle.data hay

/-- Lowercased label, `label.lower()`, as a character list. -/
def lowerChars (s : String) : List Char := s.data.map Char.toLower

/-- The source's `_normalize_metric_key(label)`: lowercase the label and map it to one of
six standard metric keys by substring tests, in source order. -/
def normalizeMetricKey (label : String) : Option String :=
  if label.data.isEmpty then none
  else
    let l := lowerChars label
    if strContains l "revenue" || strContains l "sales" then some "total_revenue"
    else if (strContains l "net" && strContains l "profit") || strContains l "pat" ||
        strContains l "profit after tax" then some "net_profit"
    else if (strContains l "operating" && (strContains l "profit" || strContains l "income")) ||
        l == "ebit".data then some "operating_profit"
    else if strContains l "ebitda" then some "ebitda"
    else if strContains l "eps" || strContains l "earnings per share" then some "eps"
    else if strContains l "operating" && strContains l "margin" then some "operating_margin"
    else none

/-- The inputs `_extract_from_single_report` receives from its sub-extractors
(which perform I/O on the PDF): camelot availability and table hits, whether
`_extract_text_with_pdfplumber` returned non-empty text and the candidates
`_parse_metrics_from_text` finds in it, and likewise for OCR. -/
structure DocInput where
  hasCamelot : Bool
  camelotCands : List Cand
  textOk : Bool
  textCands : List Cand
  ocrOk : Bool
  ocrCands : List Cand

def requiredMetrics : List String :=
  ["total_revenue", "net_profit", "operating_profit", "ebitda"]

/-- Camelot-stage insertion: `if key and key not in metrics: metrics[key] = ...`. -/
def camelotStep (m : MetricMap) (c : Cand) : MetricMap :=
  match normalizeMetricKey c.label with
  | none => m
  | some k =>
      if hasKey m k then m
      else m ++ [(k, ⟨c.value, c.unit, c.confidence, "camelot", c.label⟩)]

/-- Metric map after the camelot (table) stage. -/
def stage1 (d : DocInput) : MetricMap :=
  if d.hasCamelot then d.camelotCands.foldl camelotStep [] else []

/-- pdfplumber-stage insertion:
`if key and key in missing_metrics and key not in metrics: ...` with fixed
confidence 0.65. -/
def textStep (missing : List String) (m : MetricMap) (c : Cand) : MetricMap :=
  match normalizeMetricKey c.label with
  | none => m
  | some k =>
      if missing.contains k && !hasKey m k then
        m ++ [(k, ⟨c.value, c.unit, mkRat 65 100, "pdfplumber", c.label⟩)]
      else m

/-- Metric map after the pdfplumber (text) stage: runs only when a required
metric is still missing and the extracted text is non-empty. -/
def stage2 (d : DocInput) (m1 : MetricMap) : MetricMap :=
  let missing := requiredMetrics.filter (fun k => !hasKey m1 k)
  if missing.isEmpty then m1
  else if !d.textOk then m1
  else d.textCands.foldl (textStep missing) m1

/-- OCR-stage insertion: `if key and key not in metrics: ...` with fixed
confidence 0.45. -/
def ocrStep (m : MetricMap) (c : Cand) : MetricMap :=
  match normalizeMetricKey c.label with
  | none => m
  | some k =>
      if hasKey m k then m
      else m ++ [(k, ⟨c.value, c.unit, mkRat 45 100, "ocr", c.label⟩)]

/-- The test `critical_missing = any(m not in metrics for m in ["total_revenue", "net_profit"])`. -/
def criticalMissing (m : MetricMap) : Bool :=
  !hasKey m "total_revenue" || !hasKey m "net_profit"

/-- Metric map after the OCR stage (attempted only when a critical metric is
still missing; candidates are parsed only when the OCR text is non-empty). -/
def stage3 (d : DocInput) (m2 : MetricMap) : MetricMap :=
  if criticalMissing m2 then
    (if d.ocrOk then d.ocrCands.foldl ocrStep m2 else m2)
  else m2

/-- Result of `_extract_from_single_report`: the metric map plus the
`attempted` flags of the `extraction_log` (`ocrInvoked` records the call to
`_extract_with_ocr`, which happens exactly under the `critical_missing`
test). -/
structure CascadeResult where
  metrics : MetricMap
  camelotAttempted : Bool
  textAttempted : Bool
  ocrAttempted : Bool
  ocrInvoked : Bool

/-- The cascade `_extract_from_single_report`, running the three stages. -/
def runDoc (d : DocInput) : CascadeResult :=
  let m1 := stage1 d
  let missing := requiredMetrics.filter (fun k => !hasKey m1 k)
  let m2 := stage2 d m1
  let m3 := stage3 d m2
  { metrics := m3
    camelotAttempted := d.hasCamelot
    textAttempted := !missing.isEmpty
    ocrAttempted := criticalMissing m2
    ocrInvoked := criticalMissing m2 }

end Extractor

namespace Enrich

/-- A Python value admissible as a metric in `validate_and_enrich_metrics`:
either a bare number or a `{"value": ..., "unit": ..., "confidence": ...}`
dict. -/
inductive PyVal where
  | num (q : ℚ)
  | obj (value : ℚ) (unit : String) (confidence : ℚ)
deriving DecidableEq

/-- The metrics dict: an insertion-ordered association list. -/
abbrev Metrics := List (String × PyVal)

def lookup (m : Metrics) (k : String) : Option PyVal :=
  (m.find? (fun p => p.1 == k)).map (fun p => p.2)

def hasKey (m : Metrics) (k : String) : Bool := (lookup m k).isSome

/-- Python dict assignment `m[k] = v`: replace in place if present, else
append. -/
def setKey : Metrics → String → PyVal → Metrics
  | [], k, v => [(k, v)]
  | (k', v') :: rest, k, v =>
      if k' == k then (k', v) :: rest else (k', v') :: setKey rest k v

/-- Numeric value extraction, `float(enriched[k]["value"]) if isinstance(enriched[k], dict) else
float(enriched[k])`. -/
def floatOf : PyVal → ℚ
  | .num q => q
  | .obj v _ _ => v

/-- Deterministic enrichment step 1: derive `operating_margin` when missing
and both `operating_profit` and `total_revenue` are present with nonzero
revenue. -/
def marginStep (m : Metrics) : Metrics :=
  if !hasKey m "operating_margin" && hasKey m "operating_profit" &&
      hasKey m "total_revenue" then
    match lookup m "operating_profit", lookup m "total_revenue" with
    | some a, some b =>
        if floatOf b ≠ 0 then
          setKey m "operating_margin"
            (.obj (floatOf a / floatOf b * 100) "%" (mkRat 1 2))
        else m
    | _, _ => m
  else m

/-- Deterministic enrichment step 2, one base key: derive the
quarter-over-quarter percent change when `base` and `base ++ "_prev"` are
both present with nonzero previous value. -/
def qoqStep (m : Metrics) (base : String) : Metrics :=
  if hasKey m base && hasKey m (base ++ "_prev") then
    match lookup m base, lookup m (base ++ "_prev") with
    | some cv, some pv =>
        if floatOf pv ≠ 0 then
          setKey m (base ++ "_qoq_pct")
            (.obj ((floatOf cv - floatOf pv) / |floatOf pv| * 100) "%" (mkRat 1 2))
        else m
    | _, _ => m
  else m

/-- Final normalisation pass: dicts with a `value` keep value/unit/confidence
(defaults `"INR_Cr"`, 0.5); bare numbers become dicts with confidence 0.4. -/
def cleanVal : PyVal → PyVal
  | .num q => .obj q "INR_Cr" (mkRat 2 5)
  | .obj v u c => .obj v u c

structure EnrichResult where
  status : String
  metrics : Metrics
deriving DecidableEq

/-- The deterministic fallback path of `validate_and_enrich_metrics` (taken
whenever the LLM call fails or returns non-JSON): the margin derivation, then
the QoQ derivation for the three fixed base keys, then the normalisation
pass, with status `"fallback"`. -/
def validate_and_enrich_fallback (metrics : Metrics) : EnrichResult :=
  let e1 := marginStep metrics
  let e2 := ["total_revenue", "net_profit", "ebitda"].foldl qoqStep e1
  { status := "fallback", metrics := e2.map (fun p => (p.1, cleanVal p.2)) }

/-- The shape in which a cascade metric entry reaches the enricher (a dict
with `value`, `unit`, `confidence`). -/
def ofEntry (e : Extractor.Entry) : PyVal := .obj e.value e.unit e.confidence

/-- Cascade metric map as enricher input. -/
def ofMetricMap (m : Extractor.MetricMap) : Metrics :=
  m.map (fun p => (p.1, ofEntry p.2))

end Enrich

namespace Qual

/-- Python `str.split()` (split on whitespace runs, dropping empties),
fuel-driven (fuel = length always suffices). -/
def splitWordsF : ℕ → List Char → List (List Char)
  | 0, _ => []
  | fuel + 1, s =>
      match s with
      | [] => []
      | c :: rest =>
          if NumParse.isSpaceCh c then splitWordsF fuel rest
          else
            ((c :: rest).takeWhile (fun x => !NumParse.isSpaceCh x)) ::
              splitWordsF fuel ((c :: rest).dropWhile (fun x => !NumParse.isSpaceCh x))

/-- The source's `_chunk_text(text, chunk_words=300)`: split into words, group in blocks
of 300, rejoin with single spaces, keep chunks that are non-blank after
`strip()`. -/
def chunkText (text : List Char) : List (List Char) :=
  (((splitWordsF text.length text).toChunks 300).map
      (fun ws => List.intercalate [' '] ws)).filter
    (fun ch => ch.any (fun c => !NumParse.isSpaceCh c))

/-- The `texts` list accumulated by `index_transcripts`: each transcript is
either unreadable / without `local_path` (`none`) or contributes the chunks
of its text, in order. -/
def textsOf (ts : List (Option (List Char))) : List (List Char) :=
  ts.flatMap (fun t =>
    match t with
    | none => []
    | some txt => chunkText txt)

/-- An indexed chunk (`self.chunks` entry: metadata plus text). -/
structure Chunk where
  chunk_id : String
  source : String
  text : List Char
deriving DecidableEq

/-- A retrieval result (`chunk_id`, `source`, truncated `text`, `score`). -/
structure RetResult where
  chunk_id : String
  source : String
  text : List Char
  score : ℚ
deriving DecidableEq

/-- Squared Euclidean distance, the `s` accumulated by the pure-Python
branch of `retrieve` (the code reports `s ** 0.5`; the square root is
irrational so the embedding keeps the square — it is strictly monotone, so
every ordering statement is unaffected). -/
def sqDist (e q : List ℚ) : ℚ :=
  (e.zip q).foldl (fun s p => s + (p.1 - p.2) * (p.1 - p.2)) 0

/-- Stable insertion of index `i` into a key-sorted index list (equal keys
keep earlier indices first, like Python's stable `sorted`). -/
def insertIdx (key : ℕ → ℚ) (i : ℕ) : List ℕ → List ℕ
  | [] => [i]
  | j :: js => if key i < key j then i :: j :: js else j :: insertIdx key i js

/-- Stable `sorted(range(n), key=...)`. -/
def sortIdx (key : ℕ → ℚ) (n : ℕ) : List ℕ :=
  (List.range n).foldl (fun acc i => insertIdx key i acc) []

/-- The pure-Python branch of `retrieve`: guard on empty chunks, per-chunk
distances to the query embedding, stable sort of the indices by distance,
truncation to `min(top_k, len(chunks))`, and results with text truncated to
600 characters. -/
def retrievePure (chunks : List Chunk) (embeddings : List (List ℚ))
    (qEmb : List ℚ) (top_k : ℕ) : List RetResult :=
  if chunks.isEmpty then []
  else
    let dists := embeddings.map (fun e => sqDist e qEmb)
    let key := fun i => dists.getD i 0
    let idxs := (sortIdx key dists.length).take (min top_k chunks.length)
    idxs.map (fun i =>
      let c := chunks.getD i ⟨"", "", []⟩
      { chunk_id := c.chunk_id, source := c.source, text := c.text.take 600,
        score := key i })

/-- The sentiment computation of `analyze` from the positive / negative hit
counts. -/
def sentiment (p n : ℕ) : ℚ × String :=
  if p > n then
    let score : ℚ := min (mkRat 8 10) ((p : ℚ) / max ((p : ℚ) + (n : ℚ)) 1)
    (score, if score > mkRat 6 10 then "positive" else "cautiously optimistic")
  else if n > p then
    let score : ℚ := -(min (mkRat 8 10) ((n : ℚ) / max ((p : ℚ) + (n : ℚ)) 1))
    (score, if score < -(mkRat 6 10) then "negative" else "cautious")
  else ((0 : ℚ), "neutral")

/-- The fixed theme-to-query mapping of `analyze`. -/
def themeQueries : List (String × String) :=
  [("demand", "demand, growth, digital transformation, revenue growth, market demand"),
   ("attrition", "attrition, employee turnover, resignations, hiring, talent, retention"),
   ("guidance", "guidance, outlook, expect, forecast, projection, next quarter"),
   ("margins", "margin, profitability, costs, efficiency, operating margin"),
   ("deals", "deals, pipeline, bookings, wins, contracts, clients")]

def positiveQueries : List String :=
  ["strong performance", "growth", "optimistic", "positive"]

def negativeQueries : List String :=
  ["challenges", "headwinds", "concerns", "pressure"]

/-- The fixed risk-candidate list of `analyze`. -/
def riskThemes : List String := ["attrition", "competition", "macro", "regulation"]

structure ThemeEntry where
  theme : String
  count : ℕ
  examples : List RetResult
deriving DecidableEq

structure RiskEntry where
  name : String
  evidence : List String
deriving DecidableEq

/-- The structured output of `analyze`. -/
structure QualSummary where
  themes : List ThemeEntry
  sentiment_score : ℚ
  sentiment_summary : String
  forward_guidance : List RetResult
  risks : List RiskEntry
deriving DecidableEq

/-- The explicit insufficient-data summary returned when indexing fails. -/
def insufficientSummary : QualSummary := ⟨[], 0, "insufficient_data", [], []⟩

/-- The theme-collection loop of `analyze`: for each fixed theme query, a
theme entry is appended when retrieval returned anything. -/
def themesOf (retr : String → ℕ → List RetResult) : List ThemeEntry :=
  themeQueries.foldl (fun acc tq =>
    let results := retr tq.2 5
    if results.isEmpty then acc
    else acc ++ [⟨tq.1, results.length, results.take 3⟩]) []

/-- The risk-collection loop of `analyze`: for each risk candidate, an entry
is appended when a detected theme of that name with positive count exists. -/
def risksOf (themes : List ThemeEntry) : List RiskEntry :=
  riskThemes.foldl (fun acc name =>
    match themes.find? (fun t => t.theme == name) with
    | some t =>
        if t.count > 0 then acc ++ [⟨name, t.examples.map (fun e => e.chunk_id)⟩]
        else acc
    | none => acc) []

/-- The analyzer `analyze(transcripts)`: `index_transcripts` succeeds iff some chunk was
produced and the embedding/indexing path did not raise (`embedOk`); on
failure the insufficient-data summary is returned, otherwise themes are
collected over the fixed queries, sentiment over the positive/negative hit
counts, forward guidance retrieved, and risks drawn from detected themes.
`retr` stands for `self.retrieve` on the built index. -/
def analyze (ts : List (Option (List Char))) (embedOk : Bool)
    (retr : String → ℕ → List RetResult) : QualSummary :=
  let success := !(textsOf ts).isEmpty && embedOk
  if !success then insufficientSummary
  else
    let themes := themesOf retr
    let pCount := (positiveQueries.map (fun q => (retr q 3).length)).sum
    let nCount := (negativeQueries.map (fun q => (retr q 3).length)).sum
    let s := sentiment pCount nCount
    let fg := retr "guidance, outlook, expect, forecast, next quarter, full year" 5
    ⟨themes, s.1, s.2, fg, risksOf themes⟩

end Qual

namespace Sha256

/-! A faithful SHA-256 over byte lists (`List ℕ`, each byte < 256), used by
the fallback embedder `_FakeEmbedder` (`hashlib.sha256(t.encode()).digest()`).
32-bit words are `ℕ` reduced modulo `2 ^ 32` at every arithmetic step. -/

/-- Rotate right on 32-bit words (inputs are kept < 2^32). -/
def rotr (n x : ℕ) : ℕ := x / 2 ^ n + x % 2 ^ n * 2 ^ (32 - n)

/-- Logical shift right. -/
def shr (n x : ℕ) : ℕ := x / 2 ^ n

def ch (e f g : ℕ) : ℕ := (e &&& f) ^^^ ((e ^^^ 4294967295) &&& g)

def maj (a b c : ℕ) : ℕ := (a &&& b) ^^^ (a &&& c) ^^^ (b &&& c)

def bigSigma0 (a : ℕ) : ℕ := rotr 2 a ^^^ rotr 13 a ^^^ rotr 22 a

def bigSigma1 (e : ℕ) : ℕ := rotr 6 e ^^^ rotr 11 e ^^^ rotr 25 e

def smallSigma0 (x : ℕ) : ℕ := rotr 7 x ^^^ rotr 18 x ^^^ shr 3 x

def smallSigma1 (x : ℕ) : ℕ := rotr 17 x ^^^ rotr 19 x ^^^ shr 10 x

/-- The 64 round constants. -/
def K : List ℕ :=
  [1116352408, 1899447441, 3049323471, 3921009573, 961987163, 1508970993, 2453635748, 2870763221,
   3624381080, 310598401, 607225278, 1426881987, 1925078388, 2162078206, 2614888103, 3248222580,
   3835390401, 4022224774, 264347078, 604807628, 770255983, 1249150122, 1555081692, 1996064986,
   2554220882, 2821834349, 2952996808, 3210313671, 3336571891, 3584528711, 113926993, 338241895,
   666307205, 773529912, 1294757372, 1396182291, 1695183700, 1986661051, 2177026350, 2456956037,
   2730485921, 2820302411, 3259730800, 3345764771, 3516065817, 3600352804, 4094571909, 275423344,
   430227734, 506948616, 659060556, 883997877, 958139571, 1322822218, 1537002063, 1747873779,
   1955562222, 2024104815, 2227730452, 2361852424, 2428436474, 2756734187, 3204031479, 3329325298]

/-- Big-endian 64-bit length field. -/
def lengthBytes64 (n : ℕ) : List ℕ :=
  [n / 2 ^ 56 % 256, n / 2 ^ 48 % 256, n / 2 ^ 40 % 256, n / 2 ^ 32 % 256,
   n / 2 ^ 24 % 256, n / 2 ^ 16 % 256, n / 2 ^ 8 % 256, n % 256]

/-- Merkle–Damgård padding: `0x80`, zeros to 56 mod 64, 8 length bytes. -/
def pad (msg : List ℕ) : List ℕ :=
  let len := msg.length
  msg ++ 128 :: List.replicate ((119 - len % 64) % 64) 0 ++ lengthBytes64 (8 * len)

/-- Big-endian 32-bit words from bytes. -/
def toWords : List ℕ → List ℕ
  | b0 :: b1 :: b2 :: b3 :: rest => (((b0 * 256 + b1) * 256 + b2) * 256 + b3) :: toWords rest
  | _ => []

/-- Blocks of 16 words (fuel-driven; fuel = length suffices). -/
def toBlocksF : ℕ → List ℕ → List (List ℕ)
  | 0, _ => []
  | _ + 1, [] => []
  | fuel + 1, ws => ws.take 16 :: toBlocksF fuel (ws.drop 16)

/-- Message-schedule extension by `n` further words. -/
def extendW : ℕ → List ℕ → List ℕ
  | 0, c => c
  | n + 1, c =>
      let next := (smallSigma1 (c.getD (c.length - 2) 0) + c.getD (c.length - 7) 0 +
        smallSigma0 (c.getD (c.length - 15) 0) + c.getD (c.length - 16) 0) % 4294967296
      extendW n (c ++ [next])

/-- Working state (a..h). -/
structure Hash8 where
  a : ℕ
  b : ℕ
  c : ℕ
  d : ℕ
  e : ℕ
  f : ℕ
  g : ℕ
  h : ℕ

/-- One compression round. -/
def round (st : Hash8) (kt wt : ℕ) : Hash8 :=
  let t1 := (st.h + bigSigma1 st.e + ch st.e st.f st.g + kt + wt) % 4294967296
  let t2 := (bigSigma0 st.a + maj st.a st.b st.c) % 4294967296
  ⟨(t1 + t2) % 4294967296, st.a, st.b, st.c, (st.d + t1) % 4294967296, st.e, st.f, st.g⟩

/-- Compress one 16-word block into the state. -/
def compressBlock (st : Hash8) (block : List ℕ) : Hash8 :=
  let w := extendW 48 block
  let fin := (K.zip w).foldl (fun s p => round s p.1 p.2) st
  ⟨(st.a + fin.a) % 4294967296, (st.b + fin.b) % 4294967296, (st.c + fin.c) % 4294967296,
   (st.d + fin.d) % 4294967296, (st.e + fin.e) % 4294967296, (st.f + fin.f) % 4294967296,
   (st.g + fin.g) % 4294967296, (st.h + fin.h) % 4294967296⟩

/-- Initial hash value. -/
def H0 : Hash8 :=
  ⟨1779033703, 3144134277, 1013904242, 2773480762,
   1359893119, 2600822924, 528734635, 1541459225⟩

/-- Big-endian bytes of a 32-bit word. -/
def wordBytes (w : ℕ) : List ℕ :=
  [w / 16777216 % 256, w / 65536 % 256, w / 256 % 256, w % 256]

/-- The 32-byte SHA-256 digest of a byte list. -/
def sha256 (msg : List ℕ) : List ℕ :=
  let ws := toWords (pad msg)
  let fin := (toBlocksF ws.length ws).foldl compressBlock H0
  wordBytes fin.a ++ wordBytes fin.b ++ wordBytes fin.c ++ wordBytes fin.d ++
    wordBytes fin.e ++ wordBytes fin.f ++ wordBytes fin.g ++ wordBytes fin.h

end Sha256

namespace Qual

/-- Encoding `t.encode("utf-8")` as a byte list. -/
def utf8Bytes (t : String) : List ℕ :=
  t.data.flatMap (fun c => (String.utf8EncodeChar c).map (fun b => b.toNat))

/-- The digest `hashlib.sha256(t.encode("utf-8")).digest()`. -/
def digestBytes (t : String) : List ℕ := Sha256.sha256 (utf8Bytes t)

/-- One component of the pre-normalisation vector:
`(h[i % len(h)] / 255.0) * 2.0 - 1.0`. -/
def rawComponent (h : List ℕ) (i : ℕ) : ℚ :=
  (h.getD (i % h.length) 0 : ℚ) / 255 * 2 - 1

/-- The fallback embedder's pre-normalisation vector for one text
(`dim = 64`). -/
def encodeRaw (t : String) : List ℚ :=
  (List.range 64).map (rawComponent (digestBytes t))

/-- The sum `sum(x * x for x in vec)`. -/
def sumSq (l : List ℚ) : ℚ := (l.map (fun x => x * x)).sum

end Qual

-- ===== Helper lemmas =====

theorem NumParse.isSpaceCh_of_digit (c : Char) (hc : NumParse.isDigitCh c = true) :
    NumParse.isSpaceCh c = false := by
  have h : c ∈ ['0', '1', '2', '3', '4', '5', '6', '7', '8', '9'] := by
    simpa [NumParse.isDigitCh] using hc
  fin_cases h <;> decide

theorem NumParse.isNumCh_of_digit (c : Char) (hc : NumParse.isDigitCh c = true) :
    NumParse.isNumCh c = true := by
  simp [NumParse.isNumCh, hc]

theorem NumParse.dropWhile_append_all (p : Char → Bool) (sp rest : List Char)
    (h : ∀ x ∈ sp, p x = true) :
    (sp ++ rest).dropWhile p = rest.dropWhile p := by
  induction sp with
  | nil => rfl
  | cons x xs ih =>
      simp only [List.cons_append, List.dropWhile_cons, h x (List.mem_cons_self x xs),
        if_true]
      exact ih fun y hy => h y (List.mem_cons_of_mem x hy)

theorem NumParse.p1Group_spaces (sp b : List Char) (c : Char)
    (hsp : ∀ x ∈ sp, NumParse.isSpaceCh x = true) (hc : NumParse.isDigitCh c = true) :
    NumParse.p1Group (sp ++ c :: b) = some (c :: b.takeWhile NumParse.isNumCh) := by
  unfold NumParse.p1Group
  rw [NumParse.dropWhile_append_all _ _ _ hsp]
  simp [List.dropWhile_cons, NumParse.isSpaceCh_of_digit c hc,
    List.takeWhile_cons, NumParse.isNumCh_of_digit c hc]

theorem NumParse.p1Search_isSome (a sp b : List Char) (c : Char)
    (hsp : ∀ x ∈ sp, NumParse.isSpaceCh x = true) (hc : NumParse.isDigitCh c = true) :
    ∃ g, NumParse.p1Search (a ++ '₹' :: (sp ++ c :: b)) = some g := by
  induction a with
  | nil =>
      refine ⟨c :: b.takeWhile NumParse.isNumCh, ?_⟩
      simp [NumParse.p1Search, NumParse.p1Group_spaces sp b c hsp hc]
  | cons x xs ih =>
      obtain ⟨g, hg⟩ := ih
      by_cases hx : x = '₹'
      · subst hx
        cases hpg : NumParse.p1Group (xs ++ '₹' :: (sp ++ c :: b)) with
        | some g2 => exact ⟨g2, by simp [NumParse.p1Search, hpg]⟩
        | none => exact ⟨g, by simpa [NumParse.p1Search, hpg] using hg⟩
      · exact ⟨g, by simpa [NumParse.p1Search, hx] using hg⟩

theorem NumParse.parseChars_of_p1 (s g : List Char) (hg : NumParse.p1Search s = some g) :
    NumParse.parseChars s = NumParse.pyFloat (g.filter (fun x => x != ',')) := by
  unfold NumParse.parseChars
  rw [hg]

-- ===== Claim theorems =====

/-- C3: the number parser satisfies the spec's concrete examples —
`parse("₹ 12,345.67 Cr") = 12345.67`, `parse("1,23,456") = 123456.0`,
`parse("123,456") = 123456.0`, `parse("9876.54") = 9876.54`, and
`parse("")`/`parse("no numbers here")` are `None`.  The four patterns
(currency-marked, Indian grouping, Western grouping, plain decimal) are tried
in that order with the first successful match returned, which `parseChars`
realises definitionally; the last conjunct shows the order being exercised
(the currency pattern wins over a grouped number occurring later). -/
theorem claim_C3_parser_examples :
    NumParse.parse_inr_number "₹ 12,345.67 Cr" = some (12345.67 : ℚ) ∧
    NumParse.parse_inr_number "1,23,456" = some (123456 : ℚ) ∧
    NumParse.parse_inr_number "123,456" = some (123456 : ℚ) ∧
    NumParse.parse_inr_number "9876.54" = some (9876.54 : ℚ) ∧
    NumParse.parse_inr_number "" = none ∧
    NumParse.parse_inr_number "no numbers here" = none ∧
    NumParse.parse_inr_number "₹ 5 then 1,23,456" = some (5 : ℚ) := by
  refine ⟨?_, by decide, by decide, ?_, by decide, by decide, by decide⟩
  · have h : NumParse.parse_inr_number "₹ 12,345.67 Cr" = some (mkRat 1234567 100) := by
      decide
    rw [h]; norm_num [Rat.mkRat_eq_div]
  · have h : NumParse.parse_inr_number "9876.54" = some (mkRat 987654 100) := by decide
    rw [h]; norm_num [Rat.mkRat_eq_div]

/-- C4 counterexample: the claim says pattern 1 also recognises `Rs`-marked
numbers, but the source regex `r'₹\s*([0-9,\.]+)\s*(Cr|Crore|CR|cr|Million|Mn)?'`
only matches the `₹` symbol.  On `"Rs 500"` — which contains `Rs` followed by
digits — pattern 1 does not match at all; the value is produced by the plain
pattern 4 instead. -/
theorem claim_C4_counterexample :
    NumParse.p1Search "Rs 500".data = none ∧
    NumParse.parse_inr_number "Rs 500" = some (500 : ℚ) := by
  constructor <;> decide

/-- C4 (amended): the parser's first pattern matches a currency-marked number
introduced by the symbol `₹` only (not by `Rs`): for every input text
containing `₹` followed (after optional whitespace) by a digit, pattern 1
matches, and `parse_inr_number` returns the comma-stripped float of pattern
1's group before any of the grouping patterns are tried. -/
theorem claim_C4_amended (a sp b : List Char) (c : Char)
    (hsp : ∀ x ∈ sp, NumParse.isSpaceCh x = true) (hc : NumParse.isDigitCh c = true) :
    ∃ g, NumParse.p1Search (a ++ '₹' :: (sp ++ c :: b)) = some g ∧
      NumParse.parseChars (a ++ '₹' :: (sp ++ c :: b)) =
        NumParse.pyFloat (g.filter (fun x => x != ',')) := by
  obtain ⟨g, hg⟩ := NumParse.p1Search_isSome a sp b c hsp hc
  exact ⟨g, hg, NumParse.parseChars_of_p1 _ g hg⟩

/-- Witness for the amended C4 at the concrete input `"x₹ 500"`. -/
theorem claim_C4_amended_witness :
    ∃ g, NumParse.p1Search (['x'] ++ '₹' :: ([' '] ++ '5' :: ['0', '0'])) = some g ∧
      NumParse.parseChars (['x'] ++ '₹' :: ([' '] ++ '5' :: ['0', '0'])) =
        NumParse.pyFloat (g.filter (fun x => x != ',')) :=
  claim_C4_amended ['x'] [' '] ['0', '0'] '5' (by decide) (by decide)

-- ===== Extractor lemmas =====

theorem Extractor.lookup_append_of_some (m l : Extractor.MetricMap) (k : String)
    (v : Extractor.Entry) (h : Extractor.lookup m k = some v) :
    Extractor.lookup (m ++ l) k = some v := by
  unfold Extractor.lookup at h ⊢
  obtain ⟨p, hp, hv⟩ := Option.map_eq_some'.mp h
  rw [List.find?_append, hp]
  simpa using hv

theorem Extractor.foldl_preserves {α : Type} (step : Extractor.MetricMap → α → Extractor.MetricMap)
    (hstep : ∀ m c k v, Extractor.lookup m k = some v → Extractor.lookup (step m c) k = some v)
    (cands : List α) (m : Extractor.MetricMap) (k : String) (v : Extractor.Entry)
    (h : Extractor.lookup m k = some v) :
    Extractor.lookup (cands.foldl step m) k = some v := by
  induction cands generalizing m with
  | nil => exact h
  | cons c cs ih => exact ih _ (hstep m c k v h)

theorem Extractor.camelotStep_mono (m : Extractor.MetricMap) (c : Extractor.Cand)
    (k : String) (v : Extractor.Entry) (h : Extractor.lookup m k = some v) :
    Extractor.lookup (Extractor.camelotStep m c) k = some v := by
  unfold Extractor.camelotStep
  split
  · exact h
  · split
    · exact h
    · exact Extractor.lookup_append_of_some _ _ _ _ h

theorem Extractor.textStep_mono (missing : List String) (m : Extractor.MetricMap)
    (c : Extractor.Cand) (k : String) (v : Extractor.Entry)
    (h : Extractor.lookup m k = some v) :
    Extractor.lookup (Extractor.textStep missing m c) k = some v := by
  unfold Extractor.textStep
  split
  · exact h
  · split
    · exact Extractor.lookup_append_of_some _ _ _ _ h
    · exact h

theorem Extractor.ocrStep_mono (m : Extractor.MetricMap) (c : Extractor.Cand)
    (k : String) (v : Extractor.Entry) (h : Extractor.lookup m k = some v) :
    Extractor.lookup (Extractor.ocrStep m c) k = some v := by
  unfold Extractor.ocrStep
  split
  · exact h
  · split
    · exact h
    · exact Extractor.lookup_append_of_some _ _ _ _ h

theorem Extractor.stage2_mono (d : Extractor.DocInput) (m1 : Extractor.MetricMap)
    (k : String) (v : Extractor.Entry) (h : Extractor.lookup m1 k = some v) :
    Extractor.lookup (Extractor.stage2 d m1) k = some v := by
  unfold Extractor.stage2
  by_cases h1 :
      (List.filter (fun k => !Extractor.hasKey m1 k) Extractor.requiredMetrics).isEmpty = true
  · simpa [h1] using h
  · by_cases h2 : (!d.textOk) = true
    · simpa [h1, h2] using h
    · simp only [h1, h2, if_false]
      exact Extractor.foldl_preserves _ (fun m c k' v' h' =>
        Extractor.textStep_mono _ m c k' v' h') _ _ _ _ h

theorem Extractor.stage3_mono (d : Extractor.DocInput) (m2 : Extractor.MetricMap)
    (k : String) (v : Extractor.Entry) (h : Extractor.lookup m2 k = some v) :
    Extractor.lookup (Extractor.stage3 d m2) k = some v := by
  unfold Extractor.stage3
  by_cases h1 : Extractor.criticalMissing m2 = true
  · by_cases h2 : d.ocrOk = true
    · simp only [h1, h2, if_true]
      exact Extractor.foldl_preserves _ (fun m c k' v' h' =>
        Extractor.ocrStep_mono m c k' v' h') _ _ _ _ h
    · simpa [h1, h2] using h
  · simpa [h1] using h

theorem Extractor.normalize_mem (lab k : String)
    (h : Extractor.normalizeMetricKey lab = some k) :
    k ∈ ["total_revenue", "net_profit", "operating_profit", "ebitda", "eps",
      "operating_margin"] := by
  simp only [Extractor.normalizeMetricKey] at h
  repeat' split at h
  all_goals simp_all

theorem Extractor.hasKey_append_elim (m : Extractor.MetricMap) (k k2 : String)
    (e : Extractor.Entry) (h : Extractor.hasKey (m ++ [(k2, e)]) k = true) :
    Extractor.hasKey m k = true ∨ k = k2 := by
  unfold Extractor.hasKey Extractor.lookup at h ⊢
  rw [List.find?_append] at h
  cases hf : m.find? (fun p => p.1 == k) with
  | some p => left; simp [hf]
  | none =>
      right
      rw [hf] at h
      by_cases hk : (k2 == k) = true
    
      · exact (beq_iff_eq.mp hk).symm
      · simp [List.find?, hk] at h

theorem Extractor.foldl_keys {α : Type} (L : List String)
    (step : Extractor.MetricMap → α → Extractor.MetricMap)
    (hstep : ∀ m c k, Extractor.hasKey (step m c) k = true →
      Extractor.hasKey m k = true ∨ k ∈ L)
    (cands : List α) (m : Extractor.MetricMap) (k : String)
    (h : Extractor.hasKey (cands.foldl step m) k = true) :
    Extractor.hasKey m k = true ∨ k ∈ L := by
  induction cands generalizing m with
  | nil => exact Or.inl h
  | cons c cs ih =>
      rcases ih _ h with h' | h'
      · exact hstep m c k h'
      · exact Or.inr h'

theorem Extractor.camelotStep_keys (m : Extractor.MetricMap) (c : Extractor.Cand)
    (k : String) (h : Extractor.hasKey (Extractor.camelotStep m c) k = true) :
    Extractor.hasKey m k = true ∨ k ∈ ["total_revenue", "net_profit",
      "operating_profit", "ebitda", "eps", "operating_margin"] := by
  unfold Extractor.camelotStep at h
  split at h
  · exact Or.inl h
  · split at h
    · exact Or.inl h
    · rcases Extractor.hasKey_append_elim _ _ _ _ h with h' | h'
      · exact Or.inl h'
      · subst h'
        next heq _ => exact Or.inr (Extractor.normalize_mem _ _ heq)

theorem Extractor.textStep_keys (missing : List String) (m : Extractor.MetricMap)
    (c : Extractor.Cand) (k : String)
    (h : Extractor.hasKey (Extractor.textStep missing m c) k = true) :
    Extractor.hasKey m k = true ∨ k ∈ ["total_revenue", "net_profit",
      "operating_profit", "ebitda", "eps", "operating_margin"] := by
  unfold Extractor.textStep at h
  split at h
  · exact Or.inl h
  · split at h
    · rcases Extractor.hasKey_append_elim _ _ _ _ h with h' | h'
      · exact Or.inl h'
      · subst h'
        next heq _ => exact Or.inr (Extractor.normalize_mem _ _ heq)
    · exact Or.inl h

theorem Extractor.ocrStep_keys (m : Extractor.MetricMap) (c : Extractor.Cand)
    (k : String) (h : Extractor.hasKey (Extractor.ocrStep m c) k = true) :
    Extractor.hasKey m k = true ∨ k ∈ ["total_revenue", "net_profit",
      "operating_profit", "ebitda", "eps", "operating_margin"] := by
  unfold Extractor.ocrStep at h
  split at h
  · exact Or.inl h
  · split at h
    · exact Or.inl h
    · rcases Extractor.hasKey_append_elim _ _ _ _ h with h' | h'
      · exact Or.inl h'
      · subst h'
        next heq _ => exact Or.inr (Extractor.normalize_mem _ _ heq)

theorem Extractor.runDoc_keys (d : Extractor.DocInput) (k : String)
    (h : Extractor.hasKey (Extractor.runDoc d).metrics k = true) :
    k ∈ ["total_revenue", "net_profit", "operating_profit", "ebitda", "eps",
      "operating_margin"] := by
  have h3 : Extractor.hasKey (Extractor.stage3 d (Extractor.stage2 d (Extractor.stage1 d))) k
      = true := h
  -- peel stage3
  have h2 : Extractor.hasKey (Extractor.stage2 d (Extractor.stage1 d)) k = true ∨
      k ∈ ["total_revenue", "net_profit", "operating_profit", "ebitda", "eps",
        "operating_margin"] := by
    unfold Extractor.stage3 at h3
    by_cases hc : Extractor.criticalMissing (Extractor.stage2 d (Extractor.stage1 d)) = true
    · by_cases ho : d.ocrOk = true
      · rw [if_pos hc, if_pos ho] at h3
        exact Extractor.foldl_keys _ _ (fun m c k' h' => Extractor.ocrStep_keys m c k' h')
          _ _ _ h3
      · rw [if_pos hc, if_neg ho] at h3; exact Or.inl h3
    · rw [if_neg hc] at h3; exact Or.inl h3
  rcases h2 with h2 | h2
  · have h1 : Extractor.hasKey (Extractor.stage1 d) k = true ∨
        k ∈ ["total_revenue", "net_profit", "operating_profit", "ebitda", "eps",
          "operating_margin"] := by
      unfold Extractor.stage2 at h2
      by_cases hm : (List.filter (fun k => !Extractor.hasKey (Extractor.stage1 d) k)
          Extractor.requiredMetrics).isEmpty = true
      · simp only [hm, if_true] at h2; exact Or.inl h2
      · by_cases ht : (!d.textOk) = true
        · simp only [hm, ht, if_false, if_true] at h2; exact Or.inl h2
        · simp only [hm, ht, if_false] at h2
          exact Extractor.foldl_keys _ _
            (fun m c k' h' => Extractor.textStep_keys _ m c k' h') _ _ _ h2
    rcases h1 with h1 | h1
    · unfold Extractor.stage1 at h1
      by_cases hcam : d.hasCamelot = true
      · rw [if_pos hcam] at h1
        rcases Extractor.foldl_keys _ _
            (fun m c k' h' => Extractor.camelotStep_keys m c k' h') _ _ _ h1 with h0 | h0
        · simp [Extractor.hasKey, Extractor.lookup] at h0
        · exact h0
      · rw [if_neg hcam] at h1
        simp [Extractor.hasKey, Extractor.lookup] at h1
    · exact h1
  · exact h2

-- ===== Enrich lemmas =====

theorem Enrich.lookup_set_self (m : Enrich.Metrics) (k : String) (v : Enrich.PyVal) :
    Enrich.lookup (Enrich.setKey m k v) k = some v := by
  induction m with
  | nil => simp [Enrich.setKey, Enrich.lookup, List.find?]
  | cons p rest ih =>
      unfold Enrich.setKey
      by_cases hk : (p.1 == k) = true
      · simp [hk, Enrich.lookup, List.find?]
      · simp only [hk, if_false]
        simpa [Enrich.lookup, List.find?, hk] using ih

theorem Enrich.lookup_set_ne (m : Enrich.Metrics) (k k2 : String) (v : Enrich.PyVal)
    (hne : (k2 == k) = false) :
    Enrich.lookup (Enrich.setKey m k2 v) k = Enrich.lookup m k := by
  induction m with
  | nil => simp [Enrich.setKey, Enrich.lookup, List.find?, hne]
  | cons p rest ih =>
      unfold Enrich.setKey
      by_cases hk : (p.1 == k2) = true
      · have hp : (p.1 == k) = false := by
          have h1 : p.1 = k2 := beq_iff_eq.mp hk
          subst h1; exact hne
        simp [hk, hp, Enrich.lookup, List.find?]
      · simp only [hk, if_false]
        by_cases hp : (p.1 == k) = true
        · simp [hp, Enrich.lookup, List.find?]
        · simpa [Enrich.lookup, List.find?, hp] using ih

theorem Enrich.marginStep_preserves (m : Enrich.Metrics) (k : String) (v : Enrich.PyVal)
    (h : Enrich.lookup m k = some v) :
    Enrich.lookup (Enrich.marginStep m) k = some v := by
  unfold Enrich.marginStep
  cases hg : (!Enrich.hasKey m "operating_margin" && Enrich.hasKey m "operating_profit" &&
      Enrich.hasKey m "total_revenue") with
  | false => simpa [hg] using h
  | true =>
      simp only [hg, if_true]
      cases hop : Enrich.lookup m "operating_profit" with
      | none => simp only [hop]; exact h
      | some a =>
          cases htr : Enrich.lookup m "total_revenue" with
          | none => simp only [hop, htr]; exact h
          | some b =>
              simp only [hop, htr]
              by_cases hz : Enrich.floatOf b ≠ 0
              · rw [if_pos hz]
                cases hk : (("operating_margin" : String) == k) with
                | true =>
                    exfalso
                    have hke : ("operating_margin" : String) = k := beq_iff_eq.mp hk
                    have h1 : Enrich.hasKey m "operating_margin" = false := by
                      simp only [Bool.and_eq_true, Bool.not_eq_true'] at hg
                      exact hg.1.1
                    rw [Enrich.hasKey, hke, h] at h1
                    simp at h1
                | false => rw [Enrich.lookup_set_ne m _ _ _ hk]; exact h
              · rw [if_neg hz]; exact h

theorem Enrich.qoqStep_preserves (m : Enrich.Metrics) (base k : String)
    (v : Enrich.PyVal) (h : Enrich.lookup m k = some v)
    (hne : ((base ++ "_qoq_pct") == k) = false) :
    Enrich.lookup (Enrich.qoqStep m base) k = some v := by
  unfold Enrich.qoqStep
  cases hg : (Enrich.hasKey m base && Enrich.hasKey m (base ++ "_prev")) with
  | false => simpa [hg] using h
  | true =>
      simp only [hg, if_true]
      cases hc : Enrich.lookup m base with
      | none => simp only [hc]; exact h
      | some cv =>
          cases hp : Enrich.lookup m (base ++ "_prev") with
          | none => simp only [hc, hp]; exact h
          | some pv =>
              simp only [hc, hp]
              by_cases hz : Enrich.floatOf pv ≠ 0
              · rw [if_pos hz, Enrich.lookup_set_ne m _ _ _ hne]; exact h
              · rw [if_neg hz]; exact h

theorem Enrich.qoqStep_fires (m : Enrich.Metrics) (base : String)
    (cv pv : Enrich.PyVal) (h1 : Enrich.lookup m base = some cv)
    (h2 : Enrich.lookup m (base ++ "_prev") = some pv)
    (h3 : Enrich.floatOf pv ≠ 0) :
    Enrich.qoqStep m base = Enrich.setKey m (base ++ "_qoq_pct")
      (.obj ((Enrich.floatOf cv - Enrich.floatOf pv) / |Enrich.floatOf pv| * 100) "%"
        (mkRat 1 2)) := by
  unfold Enrich.qoqStep Enrich.hasKey
  rw [h1, h2]
  simp [h3]

theorem Enrich.marginStep_fires (m : Enrich.Metrics) (a b : Enrich.PyVal)
    (h0 : Enrich.lookup m "operating_margin" = none)
    (h1 : Enrich.lookup m "operating_profit" = some a)
    (h2 : Enrich.lookup m "total_revenue" = some b)
    (h3 : Enrich.floatOf b ≠ 0) :
    Enrich.marginStep m = Enrich.setKey m "operating_margin"
      (.obj (Enrich.floatOf a / Enrich.floatOf b * 100) "%" (mkRat 1 2)) := by
  unfold Enrich.marginStep Enrich.hasKey
  rw [h0, h1, h2]
  simp [h3]

theorem Enrich.lookup_clean (m : Enrich.Metrics) (k : String) :
    Enrich.lookup (m.map (fun p => (p.1, Enrich.cleanVal p.2))) k =
      (Enrich.lookup m k).map Enrich.cleanVal := by
  induction m with
  | nil => simp [Enrich.lookup, List.find?]
  | cons p rest ih =>
      by_cases hk : (p.1 == k) = true
      · simp [Enrich.lookup, List.find?, hk]
      · simpa [Enrich.lookup, List.find?, hk] using ih

theorem Enrich.lookup_ofMetricMap (m : Extractor.MetricMap) (k : String) :
    Enrich.lookup (Enrich.ofMetricMap m) k =
      (Extractor.lookup m k).map Enrich.ofEntry := by
  induction m with
  | nil => simp [Enrich.lookup, Extractor.lookup, Enrich.ofMetricMap, List.find?]
  | cons p rest ih =>
      by_cases hk : (p.1 == k) = true
      · simp [Enrich.lookup, Extractor.lookup, Enrich.ofMetricMap, List.find?, hk]
      · simpa [Enrich.lookup, Extractor.lookup, Enrich.ofMetricMap, List.find?, hk] using ih

theorem Enrich.fallback_metrics (m : Enrich.Metrics) :
    (Enrich.validate_and_enrich_fallback m).metrics =
      (Enrich.qoqStep (Enrich.qoqStep (Enrich.qoqStep (Enrich.marginStep m)
        "total_revenue") "net_profit") "ebitda").map
        (fun p => (p.1, Enrich.cleanVal p.2)) := rfl

/-- C2: the OCR stage is attempted (and the OCR extractor invoked) if and
only if, after the text stage has completed, `total_revenue` or `net_profit`
is still absent from the metric map (`critical_missing` in the source). -/
theorem claim_C2_ocr_iff (d : Extractor.DocInput) :
    ((Extractor.runDoc d).ocrAttempted = true ∧ (Extractor.runDoc d).ocrInvoked = true) ↔
      (Extractor.lookup (Extractor.stage2 d (Extractor.stage1 d)) "total_revenue" = none ∨
       Extractor.lookup (Extractor.stage2 d (Extractor.stage1 d)) "net_profit" = none) := by
  have h1 : (Extractor.runDoc d).ocrAttempted =
      Extractor.criticalMissing (Extractor.stage2 d (Extractor.stage1 d)) := rfl
  have h2 : (Extractor.runDoc d).ocrInvoked =
      Extractor.criticalMissing (Extractor.stage2 d (Extractor.stage1 d)) := rfl
  rw [h1, h2]
  unfold Extractor.criticalMissing Extractor.hasKey
  cases hl1 : Extractor.lookup (Extractor.stage2 d (Extractor.stage1 d)) "total_revenue" <;>
    cases hl2 : Extractor.lookup (Extractor.stage2 d (Extractor.stage1 d)) "net_profit" <;>
      simp

/-- C1: within one extraction result, metric keys are never overwritten once
set by a higher-priority method.  A key present after the table (camelot)
stage keeps exactly its entry in the final map; a key present after the text
stage does too; and the deterministic derived stage
(`validate_and_enrich_metrics` fallback) likewise only adds new keys, so a
key present in the cascade's final map reaches the enriched output with its
value, unit and confidence unchanged. -/
theorem claim_C1_precedence (d : Extractor.DocInput) (k : String) (v : Extractor.Entry) :
    (Extractor.lookup (Extractor.stage1 d) k = some v →
      Extractor.lookup (Extractor.runDoc d).metrics k = some v) ∧
    (Extractor.lookup (Extractor.stage2 d (Extractor.stage1 d)) k = some v →
      Extractor.lookup (Extractor.runDoc d).metrics k = some v) ∧
    (Extractor.lookup (Extractor.runDoc d).metrics k = some v →
      Enrich.lookup (Enrich.validate_and_enrich_fallback
        (Enrich.ofMetricMap (Extractor.runDoc d).metrics)).metrics k =
        some (Enrich.ofEntry v)) := by
  have hm : (Extractor.runDoc d).metrics =
      Extractor.stage3 d (Extractor.stage2 d (Extractor.stage1 d)) := rfl
  refine ⟨fun h1 => ?_, fun h2 => ?_, fun h3 => ?_⟩
  · rw [hm]
    exact Extractor.stage3_mono _ _ _ _ (Extractor.stage2_mono _ _ _ _ h1)
  · rw [hm]
    exact Extractor.stage3_mono _ _ _ _ h2
  · have hk : k ∈ ["total_revenue", "net_profit", "operating_profit", "ebitda", "eps",
        "operating_margin"] :=
      Extractor.runDoc_keys d k (by simp [Extractor.hasKey, h3])
    have h4 : Enrich.lookup (Enrich.ofMetricMap (Extractor.runDoc d).metrics) k =
        some (Enrich.ofEntry v) := by
      rw [Enrich.lookup_ofMetricMap, h3]; rfl
    have h5 := Enrich.marginStep_preserves _ _ _ h4
    have hne : ∀ base ∈ (["total_revenue", "net_profit", "ebitda"] : List String),
        ((base ++ "_qoq_pct") == k) = false := by
      intro base hb
      simp only [List.mem_cons, List.mem_singleton, List.not_mem_nil, or_false] at hb hk
      rcases hb with rfl | rfl | rfl <;>
        rcases hk with rfl | rfl | rfl | rfl | rfl | rfl <;> decide
    have h6 := Enrich.qoqStep_preserves _ "ebitda" _ _
      (Enrich.qoqStep_preserves _ "net_profit" _ _
        (Enrich.qoqStep_preserves _ "total_revenue" _ _ h5
          (hne "total_revenue" (by simp)))
        (hne "net_profit" (by simp)))
      (hne "ebitda" (by simp))
    rw [Enrich.fallback_metrics, Enrich.lookup_clean, h6]
    simp [Enrich.cleanVal, Enrich.ofEntry]

/-- Witness for C1 at a concrete document: a camelot hit for
`Total Revenue`, a pdfplumber hit for `Net Profit`, and the enriched output
keeping the camelot entry. -/
theorem claim_C1_precedence_witness :
    (Extractor.lookup (Extractor.runDoc ⟨true,
        [⟨"Total Revenue", 100, "INR_Cr", mkRat 85 100⟩], true,
        [⟨"Net Profit", 50, "INR_Cr", 0⟩], true, []⟩).metrics "total_revenue" =
      some ⟨100, "INR_Cr", mkRat 85 100, "camelot", "Total Revenue"⟩) ∧
    (Extractor.lookup (Extractor.runDoc ⟨true,
        [⟨"Total Revenue", 100, "INR_Cr", mkRat 85 100⟩], true,
        [⟨"Net Profit", 50, "INR_Cr", 0⟩], true, []⟩).metrics "net_profit" =
      some ⟨50, "INR_Cr", mkRat 65 100, "pdfplumber", "Net Profit"⟩) ∧
    (Enrich.lookup (Enrich.validate_and_enrich_fallback
        (Enrich.ofMetricMap (Extractor.runDoc ⟨true,
          [⟨"Total Revenue", 100, "INR_Cr", mkRat 85 100⟩], true,
          [⟨"Net Profit", 50, "INR_Cr", 0⟩], true, []⟩).metrics)).metrics "total_revenue" =
      some (Enrich.ofEntry ⟨100, "INR_Cr", mkRat 85 100, "camelot", "Total Revenue"⟩)) :=
  ⟨(claim_C1_precedence _ "total_revenue" _).1 (by decide),
   (claim_C1_precedence _ "net_profit" _).2.1 (by decide),
   (claim_C1_precedence _ "total_revenue" _).2.2
     ((claim_C1_precedence _ "total_revenue" _).1 (by decide))⟩

/-- C9 counterexample: the claim says a QoQ percent change is derived for
*any* metric key with a correspondingly-keyed prior value, but the source
loops only over `["total_revenue", "net_profit", "ebitda"]`.  Supplying
`eps` and `eps_prev` (nonzero) yields no `eps_qoq_pct`. -/
theorem claim_C9_counterexample :
    Enrich.lookup (Enrich.validate_and_enrich_fallback
      [("eps", Enrich.PyVal.num 10), ("eps_prev", Enrich.PyVal.num 5)]).metrics
      "eps_qoq_pct" = none ∧
    Enrich.floatOf (Enrich.PyVal.num 5) ≠ 0 := by
  constructor <;> decide

/-- C9 (amended): the deterministic fallback of the enricher derives
`operating_margin = operating_profit / total_revenue * 100` whenever both
operands are present, revenue is nonzero and `operating_margin` is absent,
and derives the QoQ percent change `(current - previous) / |previous| * 100`
for the three base metrics `total_revenue`, `net_profit`, `ebitda` (only)
when the correspondingly-keyed `_prev` value was supplied with nonzero
previous value; the status is `"fallback"` and each derived entry carries
confidence 0.5 (within the claimed range [0.4, 0.5]). -/
theorem claim_C9_amended (m : Enrich.Metrics) :
    (Enrich.validate_and_enrich_fallback m).status = "fallback" ∧
    (∀ a b : Enrich.PyVal, Enrich.lookup m "operating_margin" = none →
      Enrich.lookup m "operating_profit" = some a →
      Enrich.lookup m "total_revenue" = some b → Enrich.floatOf b ≠ 0 →
      Enrich.lookup (Enrich.validate_and_enrich_fallback m).metrics "operating_margin" =
        some (.obj (Enrich.floatOf a / Enrich.floatOf b * 100) "%" (mkRat 1 2))) ∧
    (∀ base, base ∈ (["total_revenue", "net_profit", "ebitda"] : List String) →
      ∀ cv pv : Enrich.PyVal, Enrich.lookup m base = some cv →
      Enrich.lookup m (base ++ "_prev") = some pv → Enrich.floatOf pv ≠ 0 →
      Enrich.lookup (Enrich.validate_and_enrich_fallback m).metrics (base ++ "_qoq_pct") =
        some (.obj ((Enrich.floatOf cv - Enrich.floatOf pv) / |Enrich.floatOf pv| * 100)
          "%" (mkRat 1 2))) := by
  refine ⟨rfl, fun a b h0 h1 h2 h3 => ?_, fun base hb cv pv h1 h2 h3 => ?_⟩
  · have e1eq := Enrich.marginStep_fires m a b h0 h1 h2 h3
    have h5 : Enrich.lookup (Enrich.marginStep m) "operating_margin" =
        some (.obj (Enrich.floatOf a / Enrich.floatOf b * 100) "%" (mkRat 1 2)) := by
      rw [e1eq]; exact Enrich.lookup_set_self _ _ _
    have h6 := Enrich.qoqStep_preserves _ "ebitda" _ _
      (Enrich.qoqStep_preserves _ "net_profit" _ _
        (Enrich.qoqStep_preserves _ "total_revenue" _ _ h5 (by decide)) (by decide))
      (by decide)
    rw [Enrich.fallback_metrics, Enrich.lookup_clean, h6]
    rfl
  · simp only [List.mem_cons, List.mem_singleton, List.not_mem_nil, or_false] at hb
    rcases hb with rfl | rfl | rfl
    · have h1' := Enrich.marginStep_preserves _ _ _ h1
      have h2' := Enrich.marginStep_preserves _ _ _ h2
      have hf := Enrich.qoqStep_fires _ "total_revenue" cv pv h1' h2' h3
      have h5 : Enrich.lookup (Enrich.qoqStep (Enrich.marginStep m) "total_revenue")
          ("total_revenue" ++ "_qoq_pct") = some (.obj ((Enrich.floatOf cv -
            Enrich.floatOf pv) / |Enrich.floatOf pv| * 100) "%" (mkRat 1 2)) := by
        rw [hf]; exact Enrich.lookup_set_self _ _ _
      have h6 := Enrich.qoqStep_preserves _ "ebitda" _ _
        (Enrich.qoqStep_preserves _ "net_profit" _ _ h5 (by decide)) (by decide)
      rw [Enrich.fallback_metrics, Enrich.lookup_clean, h6]
      rfl
    · have h1' := Enrich.qoqStep_preserves _ "total_revenue" _ _
        (Enrich.marginStep_preserves _ _ _ h1) (by decide)
      have h2' := Enrich.qoqStep_preserves _ "total_revenue" _ _
        (Enrich.marginStep_preserves _ _ _ h2) (by decide)
      have hf := Enrich.qoqStep_fires _ "net_profit" cv pv h1' h2' h3
      have h5 : Enrich.lookup (Enrich.qoqStep (Enrich.qoqStep (Enrich.marginStep m)
          "total_revenue") "net_profit") ("net_profit" ++ "_qoq_pct") =
          some (.obj ((Enrich.floatOf cv - Enrich.floatOf pv) / |Enrich.floatOf pv| * 100)
            "%" (mkRat 1 2)) := by
        rw [hf]; exact Enrich.lookup_set_self _ _ _
      have h6 := Enrich.qoqStep_preserves _ "ebitda" _ _ h5 (by decide)
      rw [Enrich.fallback_metrics, Enrich.lookup_clean, h6]
      rfl
    · have h1' := Enrich.qoqStep_preserves _ "net_profit" _ _
        (Enrich.qoqStep_preserves _ "total_revenue" _ _
          (Enrich.marginStep_preserves _ _ _ h1) (by decide)) (by decide)
      have h2' := Enrich.qoqStep_preserves _ "net_profit" _ _
        (Enrich.qoqStep_preserves _ "total_revenue" _ _
          (Enrich.marginStep_preserves _ _ _ h2) (by decide)) (by decide)
      have hf := Enrich.qoqStep_fires _ "ebitda" cv pv h1' h2' h3
      have h5 : Enrich.lookup (Enrich.qoqStep (Enrich.qoqStep (Enrich.qoqStep
          (Enrich.marginStep m) "total_revenue") "net_profit") "ebitda")
          ("ebitda" ++ "_qoq_pct") = some (.obj ((Enrich.floatOf cv - Enrich.floatOf pv) /
            |Enrich.floatOf pv| * 100) "%" (mkRat 1 2)) := by
        rw [hf]; exact Enrich.lookup_set_self _ _ _
      rw [Enrich.fallback_metrics, Enrich.lookup_clean, h5]
      rfl

/-- Witness for the amended C9 at a concrete metrics dict (operating profit
30, revenue 100, previous revenue 80). -/
theorem claim_C9_amended_witness :
    (Enrich.validate_and_enrich_fallback [("operating_profit", Enrich.PyVal.num 30),
      ("total_revenue", Enrich.PyVal.num 100),
      ("total_revenue_prev", Enrich.PyVal.num 80)]).status = "fallback" ∧
    Enrich.lookup (Enrich.validate_and_enrich_fallback
      [("operating_profit", Enrich.PyVal.num 30), ("total_revenue", Enrich.PyVal.num 100),
       ("total_revenue_prev", Enrich.PyVal.num 80)]).metrics "operating_margin" =
      some (.obj (Enrich.floatOf (Enrich.PyVal.num 30) /
        Enrich.floatOf (Enrich.PyVal.num 100) * 100) "%" (mkRat 1 2)) ∧
    Enrich.lookup (Enrich.validate_and_enrich_fallback
      [("operating_profit", Enrich.PyVal.num 30), ("total_revenue", Enrich.PyVal.num 100),
       ("total_revenue_prev", Enrich.PyVal.num 80)]).metrics ("total_revenue" ++ "_qoq_pct") =
      some (.obj ((Enrich.floatOf (Enrich.PyVal.num 100) -
        Enrich.floatOf (Enrich.PyVal.num 80)) / |Enrich.floatOf (Enrich.PyVal.num 80)| * 100)
        "%" (mkRat 1 2)) :=
  ⟨(claim_C9_amended _).1,
   (claim_C9_amended _).2.1 _ _ (by decide) (by decide) (by decide) (by decide),
   (claim_C9_amended _).2.2 "total_revenue" (by decide) _ _ (by decide) (by decide)
     (by decide)⟩

-- ===== Qual lemmas =====

theorem Qual.insertIdx_length (key : ℕ → ℚ) (i : ℕ) (l : List ℕ) :
    (Qual.insertIdx key i l).length = l.length + 1 := by
  induction l with
  | nil => rfl
  | cons j js ih =>
      unfold Qual.insertIdx
      split
      · simp
      · simp [ih]

theorem Qual.insertIdx_mem (key : ℕ → ℚ) (i : ℕ) (l : List ℕ) (x : ℕ)
    (h : x ∈ Qual.insertIdx key i l) : x ∈ l ∨ x = i := by
  induction l with
  | nil =>
      simp only [Qual.insertIdx, List.mem_singleton] at h
      exact Or.inr h
  | cons j js ih =>
      unfold Qual.insertIdx at h
      split at h
      · rcases List.mem_cons.mp h with rfl | h
        · exact Or.inr rfl
        · exact Or.inl h
      · rcases List.mem_cons.mp h with rfl | h
        · exact Or.inl (List.mem_cons_self _ _)
        · rcases ih h with h' | h'
          · exact Or.inl (List.mem_cons_of_mem _ h')
          · exact Or.inr h'

theorem Qual.insertIdx_pairwise (key : ℕ → ℚ) (i : ℕ) (l : List ℕ)
    (h : l.Pairwise (fun a b => key a ≤ key b)) :
    (Qual.insertIdx key i l).Pairwise (fun a b => key a ≤ key b) := by
  induction l with
  | nil => simp [Qual.insertIdx]
  | cons j js ih =>
      rcases List.pairwise_cons.mp h with ⟨hj, hjs⟩
      unfold Qual.insertIdx
      by_cases hlt : key i < key j
      · rw [if_pos hlt]
        refine List.pairwise_cons.mpr ⟨?_, h⟩
        intro x hx
        rcases List.mem_cons.mp hx with rfl | hx
        · exact le_of_lt hlt
        · exact le_trans (le_of_lt hlt) (hj x hx)
      · rw [if_neg hlt]
        refine List.pairwise_cons.mpr ⟨?_, ih hjs⟩
        intro x hx
        rcases Qual.insertIdx_mem key i js x hx with hx' | rfl
        · exact hj x hx'
        · exact le_of_not_lt hlt

theorem Qual.foldl_insert_pairwise (key : ℕ → ℚ) (L : List ℕ) (acc : List ℕ)
    (h : acc.Pairwise (fun a b => key a ≤ key b)) :
    (L.foldl (fun a i => Qual.insertIdx key i a) acc).Pairwise
      (fun a b => key a ≤ key b) := by
  induction L generalizing acc with
  | nil => exact h
  | cons x xs ih => exact ih _ (Qual.insertIdx_pairwise key x acc h)

theorem Qual.foldl_insert_length (key : ℕ → ℚ) (L : List ℕ) (acc : List ℕ) :
    (L.foldl (fun a i => Qual.insertIdx key i a) acc).length = acc.length + L.length := by
  induction L generalizing acc with
  | nil => simp
  | cons x xs ih =>
      simp only [List.foldl_cons, ih, Qual.insertIdx_length, List.length_cons]
      omega

theorem Qual.sortIdx_pairwise (key : ℕ → ℚ) (n : ℕ) :
    (Qual.sortIdx key n).Pairwise (fun a b => key a ≤ key b) :=
  Qual.foldl_insert_pairwise key (List.range n) [] (by simp)

theorem Qual.sortIdx_length (key : ℕ → ℚ) (n : ℕ) :
    (Qual.sortIdx key n).length = n := by
  unfold Qual.sortIdx
  rw [Qual.foldl_insert_length]
  simp

theorem Qual.themesFold_sub (retr : String → ℕ → List Qual.RetResult)
    (L : List (String × String)) (acc : List Qual.ThemeEntry) :
    ∀ t ∈ L.foldl (fun acc tq =>
        let results := retr tq.2 5
        if results.isEmpty then acc
        else acc ++ [⟨tq.1, results.length, results.take 3⟩]) acc,
      t ∈ acc ∨ t.theme ∈ L.map Prod.fst := by
  induction L generalizing acc with
  | nil => intro t ht; exact Or.inl ht
  | cons tq L ih =>
      intro t ht
      simp only [List.foldl_cons] at ht
      rcases ih _ t ht with h | h
      · revert h
        split
        · intro h; exact Or.inl h
        · intro h
          rcases List.mem_append.mp h with h | h
          · exact Or.inl h
          · simp only [List.mem_singleton] at h
            subst h
            right
            simp
      · right
        simp only [List.map_cons, List.mem_cons]
        exact Or.inr h

theorem Qual.themesOf_names (retr : String → ℕ → List Qual.RetResult) :
    ∀ t ∈ Qual.themesOf retr,
      t.theme ∈ (["demand", "attrition", "guidance", "margins", "deals"] : List String) := by
  intro t ht
  rcases Qual.themesFold_sub retr Qual.themeQueries [] t ht with h | h
  · simp at h
  · simpa [Qual.themeQueries] using h

theorem Qual.risksOf_attrition (themes : List Qual.ThemeEntry)
    (h : ∀ t ∈ themes,
      t.theme ∈ (["demand", "attrition", "guidance", "margins", "deals"] : List String)) :
    (Qual.risksOf themes).length ≤ 1 ∧
      ∀ r ∈ Qual.risksOf themes, r.name = "attrition" := by
  have hnone : ∀ name ∈ (["competition", "macro", "regulation"] : List String),
      themes.find? (fun t => t.theme == name) = none := by
    intro name hn
    rw [List.find?_eq_none]
    intro t ht hbeq
    have he : t.theme = name := beq_iff_eq.mp hbeq
    have hmem := h t ht
    rw [he] at hmem
    rcases List.mem_cons.mp hn with rfl | hn
    · simp at hmem
    rcases List.mem_cons.mp hn with rfl | hn
    · simp at hmem
    rcases List.mem_cons.mp hn with rfl | hn
    · simp at hmem
    · simp at hn
  unfold Qual.risksOf Qual.riskThemes
  simp only [List.foldl_cons, List.foldl_nil]
  rw [hnone "competition" (by simp), hnone "macro" (by simp),
    hnone "regulation" (by simp)]
  cases hf : themes.find? (fun t => t.theme == "attrition") with
  | none => simp [hf]
  | some t =>
      by_cases hc : t.count > 0
      · simp [hf, hc]
      · simp [hf, hc]

-- ===== Qual claim theorems =====

/-- C5: whenever the qualitative analyzer cannot produce any chunk (no
texts from the transcript batch — empty list, missing paths, unreadable
files — or the embedding/indexing path failed), `analyze` returns exactly
the insufficient-data summary
`{themes: [], management_sentiment: {score: 0.0, summary: "insufficient_data"},
forward_guidance: [], risks: []}` (and, being a total function, raises
nothing). -/
theorem claim_C5_insufficient (ts : List (Option (List Char))) (embedOk : Bool)
    (retr : String → ℕ → List Qual.RetResult)
    (h : Qual.textsOf ts = [] ∨ embedOk = false) :
    Qual.analyze ts embedOk retr = Qual.insufficientSummary := by
  unfold Qual.analyze
  have hs : (!(Qual.textsOf ts).isEmpty && embedOk) = false := by
    rcases h with h | h
    · simp [h]
    · simp [h]
  simp [hs]

/-- Witness for C5: the empty transcript batch. -/
theorem claim_C5_insufficient_witness :
    Qual.analyze [] true (fun _ _ => []) = Qual.insufficientSummary :=
  claim_C5_insufficient [] true (fun _ _ => []) (Or.inl rfl)

/-- C10: in every summary `analyze` produces, the risks list has at most one
entry and its name can only be `"attrition"`: risk entries are drawn from
detected themes, and the fixed theme-query mapping contains no theme named
`"competition"`, `"macro"` or `"regulation"`, so those risk candidates can
never appear. -/
theorem claim_C10_risks (ts : List (Option (List Char))) (embedOk : Bool)
    (retr : String → ℕ → List Qual.RetResult) :
    (Qual.analyze ts embedOk retr).risks.length ≤ 1 ∧
    ∀ r ∈ (Qual.analyze ts embedOk retr).risks, r.name = "attrition" := by
  unfold Qual.analyze
  by_cases hs : (!(!(Qual.textsOf ts).isEmpty && embedOk)) = true
  · simp only [hs, if_true]
    refine ⟨by simp [Qual.insufficientSummary], ?_⟩
    intro r hr
    simp [Qual.insufficientSummary] at hr
  · simp only [hs, if_false]
    exact Qual.risksOf_attrition _ (Qual.themesOf_names retr)

theorem Qual.insertIdx_lex (key : ℕ → ℚ) (i : ℕ) (l : List ℕ)
    (hl : l.Pairwise (fun a b => key a < key b ∨ (key a = key b ∧ a < b)))
    (hlt : ∀ x ∈ l, x < i) :
    (Qual.insertIdx key i l).Pairwise
      (fun a b => key a < key b ∨ (key a = key b ∧ a < b)) := by
  induction l with
  | nil => simp [Qual.insertIdx]
  | cons j js ih =>
      rcases List.pairwise_cons.mp hl with ⟨hj, hjs⟩
      unfold Qual.insertIdx
      by_cases hkey : key i < key j
      · rw [if_pos hkey]
        refine List.pairwise_cons.mpr ⟨?_, hl⟩
        intro y hy
        rcases List.mem_cons.mp hy with rfl | hy
        · exact Or.inl hkey
        · rcases hj y hy with h' | ⟨h', _⟩
          · exact Or.inl (lt_trans hkey h')
          · exact Or.inl (h' ▸ hkey)
      · rw [if_neg hkey]
        refine List.pairwise_cons.mpr
          ⟨?_, ih hjs (fun x hx => hlt x (List.mem_cons_of_mem j hx))⟩
        intro y hy
        rcases Qual.insertIdx_mem key i js y hy with hy' | rfl
        · exact hj y hy'
        · rcases lt_or_eq_of_le (le_of_not_lt hkey) with h' | h'
          · exact Or.inl h'
          · exact Or.inr ⟨h', hlt j (List.mem_cons_self j js)⟩

theorem Qual.foldl_insert_mem (key : ℕ → ℚ) (L : List ℕ) (acc : List ℕ) (x : ℕ)
    (h : x ∈ L.foldl (fun a i => Qual.insertIdx key i a) acc) :
    x ∈ acc ∨ x ∈ L := by
  induction L generalizing acc with
  | nil => exact Or.inl h
  | cons i L ih =>
      rcases ih _ h with h' | h'
      · rcases Qual.insertIdx_mem key i acc x h' with h'' | rfl
        · exact Or.inl h''
        · exact Or.inr (List.mem_cons_self _ _)
      · exact Or.inr (List.mem_cons_of_mem _ h')

theorem Qual.foldl_insert_lex (key : ℕ → ℚ) (L : List ℕ) (acc : List ℕ)
    (hacc : acc.Pairwise (fun a b => key a < key b ∨ (key a = key b ∧ a < b)))
    (hbound : ∀ x ∈ acc, ∀ i ∈ L, x < i) (hL : L.Pairwise (· < ·)) :
    (L.foldl (fun a i => Qual.insertIdx key i a) acc).Pairwise
      (fun a b => key a < key b ∨ (key a = key b ∧ a < b)) := by
  induction L generalizing acc with
  | nil => exact hacc
  | cons i L ih =>
      rcases List.pairwise_cons.mp hL with ⟨hi, hL'⟩
      refine ih _ ?_ ?_ hL'
      · exact Qual.insertIdx_lex key i acc hacc
          (fun x hx => hbound x hx i (List.mem_cons_self i L))
      · intro x hx j hj
        rcases Qual.insertIdx_mem key i acc x hx with hx' | rfl
        · exact hbound x hx' j (List.mem_cons_of_mem i hj)
        · exact hi j hj

theorem Qual.sortIdx_lex (key : ℕ → ℚ) (n : ℕ) :
    (Qual.sortIdx key n).Pairwise
      (fun a b => key a < key b ∨ (key a = key b ∧ a < b)) :=
  Qual.foldl_insert_lex key (List.range n) [] (by simp) (by simp)
    (List.pairwise_lt_range n)

theorem Qual.sortIdx_mem_lt (key : ℕ → ℚ) (n : ℕ) (x : ℕ)
    (h : x ∈ Qual.sortIdx key n) : x < n := by
  rcases Qual.foldl_insert_mem key (List.range n) [] x h with h' | h'
  · simp at h'
  · exact List.mem_range.mp h'

/-- C6: for every built index with `n` chunks and every query embedding,
the pure retrieval returns exactly `min(top_k, n)` results, ordered by
non-decreasing score with ties broken by index order, and each result's text
truncated to at most 600 characters.  The last conjunct pins the tie rule
down: the results are the image of an index sequence that is pairwise
strictly ordered by the lexicographic (distance, index) order — so equal
distances appear in increasing index order, as Python's stable `sorted`
guarantees. -/
theorem claim_C6_retrieve (chunks : List Qual.Chunk) (embeddings : List (List ℚ))
    (qEmb : List ℚ) (top_k : ℕ) (hlen : embeddings.length = chunks.length)
    (hne : chunks ≠ []) :
    (Qual.retrievePure chunks embeddings qEmb top_k).length = min top_k chunks.length ∧
    List.Chain' (fun a b => a.score ≤ b.score)
      (Qual.retrievePure chunks embeddings qEmb top_k) ∧
    (∀ r ∈ Qual.retrievePure chunks embeddings qEmb top_k, r.text.length ≤ 600) ∧
    (∃ idxs : List ℕ,
      Qual.retrievePure chunks embeddings qEmb top_k = idxs.map (fun i =>
        { chunk_id := (chunks.getD i ⟨"", "", []⟩).chunk_id,
          source := (chunks.getD i ⟨"", "", []⟩).source,
          text := (chunks.getD i ⟨"", "", []⟩).text.take 600,
          score := (embeddings.map (fun e => Qual.sqDist e qEmb)).getD i 0 }) ∧
      (∀ i ∈ idxs, i < chunks.length) ∧
      idxs.Pairwise (fun i j =>
        (embeddings.map (fun e => Qual.sqDist e qEmb)).getD i 0 <
            (embeddings.map (fun e => Qual.sqDist e qEmb)).getD j 0 ∨
          ((embeddings.map (fun e => Qual.sqDist e qEmb)).getD i 0 =
              (embeddings.map (fun e => Qual.sqDist e qEmb)).getD j 0 ∧ i < j))) := by
  have hno : chunks.isEmpty = false := by
    cases chunks
    · exact absurd rfl hne
    · rfl
  have hE : Qual.retrievePure chunks embeddings qEmb top_k =
      ((Qual.sortIdx (fun i => (embeddings.map (fun e => Qual.sqDist e qEmb)).getD i 0)
        (embeddings.map (fun e => Qual.sqDist e qEmb)).length).take
          (min top_k chunks.length)).map (fun i =>
        { chunk_id := (chunks.getD i ⟨"", "", []⟩).chunk_id,
          source := (chunks.getD i ⟨"", "", []⟩).source,
          text := (chunks.getD i ⟨"", "", []⟩).text.take 600,
          score := (embeddings.map (fun e => Qual.sqDist e qEmb)).getD i 0 }) := by
    unfold Qual.retrievePure
    rw [hno]
    simp only [Bool.false_eq_true, if_false]
  rw [hE]
  refine ⟨?_, ?_, ?_, ?_⟩
  · rw [List.length_map, List.length_take, Qual.sortIdx_length, List.length_map, hlen]
    omega
  · have hp := Qual.sortIdx_pairwise
      (fun i => (embeddings.map (fun e => Qual.sqDist e qEmb)).getD i 0)
      (embeddings.map (fun e => Qual.sqDist e qEmb)).length
    have hp2 := hp.sublist (List.take_sublist (min top_k chunks.length) _)
    refine List.Pairwise.chain' ?_
    refine List.pairwise_map.mpr ?_
    exact hp2
  · intro r hr
    rcases List.mem_map.mp hr with ⟨i, _, rfl⟩
    exact List.length_take_le 600 _
  · refine ⟨(Qual.sortIdx
      (fun i => (embeddings.map (fun e => Qual.sqDist e qEmb)).getD i 0)
      (embeddings.map (fun e => Qual.sqDist e qEmb)).length).take
        (min top_k chunks.length), rfl, ?_, ?_⟩
    · intro i hi
      have hmem := (List.take_sublist (min top_k chunks.length) _).subset hi
      have hlt := Qual.sortIdx_mem_lt _ _ i hmem
      rw [List.length_map, hlen] at hlt
      exact hlt
    · exact (Qual.sortIdx_lex _ _).sublist (List.take_sublist (min top_k chunks.length) _)

/-- Witness for C6: three chunks, `top_k = 5` — exactly 3 results, ordered
by non-decreasing score with the tie-breaking index sequence, texts within
600 characters. -/
theorem claim_C6_retrieve_witness :
    (Qual.retrievePure [⟨"c0", "s", []⟩, ⟨"c1", "s", []⟩, ⟨"c2", "s", []⟩]
      [[1], [2], [3]] [0] 5).length = min 5 3 ∧
    List.Chain' (fun a b => a.score ≤ b.score)
      (Qual.retrievePure [⟨"c0", "s", []⟩, ⟨"c1", "s", []⟩, ⟨"c2", "s", []⟩]
        [[1], [2], [3]] [0] 5) ∧
    (∀ r ∈ Qual.retrievePure [⟨"c0", "s", []⟩, ⟨"c1", "s", []⟩, ⟨"c2", "s", []⟩]
      [[1], [2], [3]] [0] 5, r.text.length ≤ 600) ∧
    (∃ idxs : List ℕ,
      Qual.retrievePure [⟨"c0", "s", []⟩, ⟨"c1", "s", []⟩, ⟨"c2", "s", []⟩]
        [[1], [2], [3]] [0] 5 = idxs.map (fun i =>
        { chunk_id := (([⟨"c0", "s", []⟩, ⟨"c1", "s", []⟩, ⟨"c2", "s", []⟩] :
            List Qual.Chunk).getD i ⟨"", "", []⟩).chunk_id,
          source := (([⟨"c0", "s", []⟩, ⟨"c1", "s", []⟩, ⟨"c2", "s", []⟩] :
            List Qual.Chunk).getD i ⟨"", "", []⟩).source,
          text := (([⟨"c0", "s", []⟩, ⟨"c1", "s", []⟩, ⟨"c2", "s", []⟩] :
            List Qual.Chunk).getD i ⟨"", "", []⟩).text.take 600,
          score := (([[1], [2], [3]] : List (List ℚ)).map
            (fun e => Qual.sqDist e [0])).getD i 0 }) ∧
      (∀ i ∈ idxs, i < 3) ∧
      idxs.Pairwise (fun i j =>
        (([[1], [2], [3]] : List (List ℚ)).map (fun e => Qual.sqDist e [0])).getD i 0 <
            (([[1], [2], [3]] : List (List ℚ)).map (fun e => Qual.sqDist e [0])).getD j 0 ∨
          ((([[1], [2], [3]] : List (List ℚ)).map (fun e => Qual.sqDist e [0])).getD i 0 =
              (([[1], [2], [3]] : List (List ℚ)).map
                (fun e => Qual.sqDist e [0])).getD j 0 ∧ i < j))) :=
  claim_C6_retrieve [⟨"c0", "s", []⟩, ⟨"c1", "s", []⟩, ⟨"c2", "s", []⟩]
    [[1], [2], [3]] [0] 5 rfl (by simp)

theorem Qual.sentiment_spec (p n : ℕ) :
    Qual.sentiment p n =
      (if p > n then
        (min (0.8 : ℚ) ((p : ℚ) / ((p : ℚ) + (n : ℚ))),
          if min (0.8 : ℚ) ((p : ℚ) / ((p : ℚ) + (n : ℚ))) > (0.6 : ℚ) then "positive"
          else "cautiously optimistic")
      else if n > p then
        (-(min (0.8 : ℚ) ((n : ℚ) / ((p : ℚ) + (n : ℚ)))),
          if -(min (0.8 : ℚ) ((n : ℚ) / ((p : ℚ) + (n : ℚ)))) < -(0.6 : ℚ) then "negative"
          else "cautious")
      else ((0 : ℚ), "neutral")) := by
  have hmk8 : (mkRat 8 10 : ℚ) = (0.8 : ℚ) := by norm_num [Rat.mkRat_eq_div]
  have hmk6 : (mkRat 6 10 : ℚ) = (0.6 : ℚ) := by norm_num [Rat.mkRat_eq_div]
  rcases Nat.lt_trichotomy n p with h | h | h
  · have h1 : (1 : ℚ) ≤ (p : ℚ) + (n : ℚ) := by
      have : (1 : ℕ) ≤ p + n := by omega
      exact_mod_cast this
    have hmax : max ((p : ℚ) + (n : ℚ)) 1 = (p : ℚ) + (n : ℚ) := max_eq_left h1
    simp only [Qual.sentiment, hmax, hmk8, hmk6, if_pos h]
  · subst h
    simp [Qual.sentiment, lt_irrefl]
  · have h1 : (1 : ℚ) ≤ (p : ℚ) + (n : ℚ) := by
      have : (1 : ℕ) ≤ p + n := by omega
      exact_mod_cast this
    have hmax : max ((p : ℚ) + (n : ℚ)) 1 = (p : ℚ) + (n : ℚ) := max_eq_left h1
    have hnp : ¬ p > n := by omega
    simp only [Qual.sentiment, hmax, hmk8, hmk6, if_neg hnp, if_pos h]

/-- C7: the sentiment classifier computes exactly the claimed case analysis
(`min(0.8, ratio)` with the "positive"/"cautiously optimistic" cut at 0.6,
the negated mirror for the negative side, and 0.0/"neutral" on ties —
the source's `max(positive + negative, 1)` denominator equals
`positive + negative` in both non-tie branches), and in particular
positive = 6, negative = 2 yields score 0.75 with label "positive". -/
theorem claim_C7_sentiment (p n : ℕ) :
    Qual.sentiment p n =
      (if p > n then
        (min (0.8 : ℚ) ((p : ℚ) / ((p : ℚ) + (n : ℚ))),
          if min (0.8 : ℚ) ((p : ℚ) / ((p : ℚ) + (n : ℚ))) > (0.6 : ℚ) then "positive"
          else "cautiously optimistic")
      else if n > p then
        (-(min (0.8 : ℚ) ((n : ℚ) / ((p : ℚ) + (n : ℚ)))),
          if -(min (0.8 : ℚ) ((n : ℚ) / ((p : ℚ) + (n : ℚ)))) < -(0.6 : ℚ) then "negative"
          else "cautious")
      else ((0 : ℚ), "neutral")) ∧
    Qual.sentiment 6 2 = ((0.75 : ℚ), "positive") := by
  refine ⟨Qual.sentiment_spec p n, ?_⟩
  rw [Qual.sentiment_spec]
  norm_num [min_def]

-- ===== Sha256 / embedder lemmas =====

theorem Sha256.sha256_abc :
    Sha256.sha256 [97, 98, 99] =
      [186, 120, 22, 191, 143, 1, 207, 234, 65, 65, 64, 222, 93, 174, 34, 35,
       176, 3, 97, 163, 150, 23, 122, 156, 180, 16, 255, 97, 242, 0, 21, 173] := by
  decide

theorem Qual.rawComponent_ne_zero (h : List ℕ) (i : ℕ) : Qual.rawComponent h i ≠ 0 := by
  unfold Qual.rawComponent
  intro hq
  set b := h.getD (i % h.length) 0 with hb
  have h2 : (b : ℚ) * 2 = 255 := by
    field_simp at hq
    linarith
  have h3 : b * 2 = 255 := by exact_mod_cast h2
  omega

theorem Qual.sumSq_nonneg (l : List ℚ) : 0 ≤ Qual.sumSq l := by
  induction l with
  | nil => simp [Qual.sumSq]
  | cons x xs ih =>
      have hs : Qual.sumSq (x :: xs) = x * x + Qual.sumSq xs := by simp [Qual.sumSq]
      rw [hs]
      exact add_nonneg (mul_self_nonneg x) ih

theorem Qual.sumSq_pos (l : List ℚ) (hne : l ≠ []) (h : ∀ x ∈ l, x ≠ 0) :
    0 < Qual.sumSq l := by
  cases l with
  | nil => exact absurd rfl hne
  | cons x xs =>
      have hx : x ≠ 0 := h x (List.mem_cons_self x xs)
      have hs : Qual.sumSq (x :: xs) = x * x + Qual.sumSq xs := by simp [Qual.sumSq]
      rw [hs]
      have h1 := mul_self_pos.mpr hx
      have h2 := Qual.sumSq_nonneg xs
      linarith

theorem Qual.sumSq_div (l : List ℚ) (N : ℝ) :
    (l.map (fun x : ℚ => ((x : ℝ) / N) ^ 2)).sum = ((Qual.sumSq l : ℚ) : ℝ) / N ^ 2 := by
  induction l with
  | nil => simp [Qual.sumSq]
  | cons x xs ih =>
      have hs : Qual.sumSq (x :: xs) = x * x + Qual.sumSq xs := by simp [Qual.sumSq]
      rw [List.map_cons, List.sum_cons, ih, hs]
      push_cast
      rw [div_pow]
      ring

theorem Qual.encodeRaw_ne_zero (t : String) : ∀ x ∈ Qual.encodeRaw t, x ≠ 0 := by
  intro x hx
  rcases List.mem_map.mp hx with ⟨i, _, rfl⟩
  exact Qual.rawComponent_ne_zero _ i

theorem Qual.encodeRaw_length (t : String) : (Qual.encodeRaw t).length = 64 := by
  simp [Qual.encodeRaw]

theorem Qual.sumSq_encode_pos (t : String) : 0 < Qual.sumSq (Qual.encodeRaw t) :=
  Qual.sumSq_pos _ (by simp [Qual.encodeRaw]) (Qual.encodeRaw_ne_zero t)

/-- C8: the fallback embedder is deterministic (equal texts give identical
vectors) and norm-preserving: every vector has the fixed dimension 64, every
component is derived byte-wise from the SHA-256 digest, and after the L2
normalisation the squared norm is exactly 1 — in exact arithmetic the L2
norm is exactly 1, a fortiori within 1e-6 of 1.0 (the tolerance in the claim
only absorbs binary floating-point rounding).  Normalisation always happens
because no digest byte can make a component zero (2·b = 255 has no integer
solution), so the pre-normalisation norm is positive. -/
theorem claim_C8_fake_embedder (t1 t2 : String) (hdet : t1 = t2) :
    Qual.encodeRaw t1 = Qual.encodeRaw t2 ∧
    (Qual.encodeRaw t1).length = 64 ∧
    0 < Qual.sumSq (Qual.encodeRaw t1) ∧
    ((Qual.encodeRaw t1).map
      (fun x : ℚ => ((x : ℝ) / Real.sqrt ((Qual.sumSq (Qual.encodeRaw t1) : ℚ) : ℝ)) ^ 2)).sum
      = 1 := by
  subst hdet
  refine ⟨rfl, Qual.encodeRaw_length t1, Qual.sumSq_encode_pos t1, ?_⟩
  rw [Qual.sumSq_div]
  have hS : (0 : ℝ) < ((Qual.sumSq (Qual.encodeRaw t1) : ℚ) : ℝ) := by
    exact_mod_cast Qual.sumSq_encode_pos t1
  rw [Real.sq_sqrt (le_of_lt hS)]
  exact div_self (ne_of_gt hS)

/-- Witness for C8 at the concrete text `"demand"`. -/
theorem claim_C8_fake_embedder_witness :
    Qual.encodeRaw "demand" = Qual.encodeRaw "demand" ∧
    (Qual.encodeRaw "demand").length = 64 ∧
    0 < Qual.sumSq (Qual.encodeRaw "demand") ∧
    ((Qual.encodeRaw "demand").map
      (fun x : ℚ => ((x : ℝ) /
        Real.sqrt ((Qual.sumSq (Qual.encodeRaw "demand") : ℚ) : ℝ)) ^ 2)).sum = 1 :=
  claim_C8_fake_embedder "demand" "demand" rfl
